import Mathlib

/-!
Verification of the Pixel2CPP encoding engine.

The definitions below are a shallow embedding of the packing and
code-generation functions of `src/lib/io.js` (packers) and
`src/Pixel2CPP.jsx` (`generateCppCode`, `exportCpp`).

Modelling conventions:
* A JavaScript pixel object `{r, g, b, a}` becomes the structure `Pixel`
  with natural-number channels.
* JavaScript array indexing `pixels[i]` followed by a property access
  throws a `TypeError` when `i` is out of bounds; this is modelled by
  `pixAt`, which returns `Except String Pixel`.  Consequently every
  packer returns `Except String (List Nat)` and propagates such errors,
  exactly as a thrown exception propagates out of the JS function.
* The source compares `p.r + p.g + p.b` with `(255 * 3) / 2`, a
  JavaScript floating-point division whose value `382.5` is exactly
  representable; the comparison is embedded over `ℚ`.
* `packGray4` computes `0.2126 * r + 0.7152 * g + 0.0722 * b` in binary
  floating point (IEEE-754 double precision, the JS number type).  The
  embedding models each double operation exactly: values are nonnegative
  dyadic rationals (`Dbl`), the weight literals are the doubles nearest
  0.2126, 0.7152 and 0.0722, and the result of each `*`, `+` and `/ 16`
  is rounded to 53 significant bits, to nearest, ties to even
  (`roundDbl`).  Every value arising in this expression for 8-bit
  channels is nonnegative and normal, far from overflow and underflow,
  where this rounding is exactly the IEEE-754 semantics.
-/

/-- A pixel `{r, g, b, a}`; each channel is an 8-bit value in the source. -/
structure Pixel where
  r : ℕ
  g : ℕ
  b : ℕ
  a : ℕ
deriving DecidableEq

/-- JS `pixels[i]` followed by a property access: out of bounds throws. -/
def pixAt (pixels : List Pixel) (i : ℕ) : Except String Pixel :=
  match pixels[i]? with
  | some p => .ok p
  | none => .error "TypeError: cannot read properties of undefined"

/-- Total indexing used on the specification side (in-bounds by hypothesis). -/
def pixAtD (pixels : List Pixel) (i : ℕ) : Pixel :=
  pixels.getD i ⟨0, 0, 0, 0⟩

/-- Error-propagating map over a list, the shape of a JS loop that may throw. -/
def exMap (f : α → Except String β) : List α → Except String (List β)
  | [] => .ok []
  | a :: l =>
    match f a with
    | .error e => .error e
    | .ok b =>
      match exMap f l with
      | .error e => .error e
      | .ok bs => .ok (b :: bs)

/-- `io.js` line 77/97: `const on = (p.r + p.g + p.b) > (255 * 3) / 2`.
The right-hand side is the JS double `382.5`; the comparison is stated
here scaled by 2 to stay in `ℕ` (kernel-computable), and
`onPix_eq_source` below proves it equal to the source's rational
comparison verbatim. -/
def onPix (p : Pixel) : Bool :=
  decide (255 * 3 < 2 * (p.r + p.g + p.b))

/-- `onPix` is exactly the source comparison `(r + g + b) > (255 * 3) / 2`
carried out in exact (rational) arithmetic. -/
theorem onPix_eq_source (p : Pixel) :
    onPix p = decide ((((255 * 3 : ℚ)) / 2) < ((p.r + p.g + p.b : ℕ) : ℚ)) := by
  rw [onPix, decide_eq_decide, div_lt_iff₀ (by norm_num : (0 : ℚ) < 2)]
  norm_cast
  omega

/-- `io.js` line 117/137: `const hasAlpha = p.a > 127`. -/
def alphaOn (p : Pixel) : Bool := 127 < p.a

/-- `io.js` `rgbTo565`. -/
def rgbTo565 (r g b : ℕ) : ℕ :=
  let R := (r >>> 3) &&& 0x1f
  let G := (g >>> 2) &&& 0x3f
  let B := (b >>> 3) &&& 0x1f
  (R <<< 11) ||| (G <<< 5) ||| B

/-- Inner loop of the horizontal orientation of `pack1bit` / `pack1bitAlpha`
(`io.js` lines 74-88): runs over the x coordinates of one row, packing bits
MSB-first into `cur`, flushing a byte each time `bit` would go below 0.
`isOn` is the on-predicate of the respective packer. -/
def hRowGo (isOn : Pixel → Bool) (pixels : List Pixel) (width y : ℕ) :
    List ℕ → ℕ → ℕ → List ℕ → Except String (List ℕ)
  | [], bit, cur, acc => if bit ≠ 7 then .ok (acc ++ [cur]) else .ok acc
  | x :: xs, bit, cur, acc =>
    match pixAt pixels (y * width + x) with
    | .error e => .error e
    | .ok p =>
      let cur' := if isOn p then cur ||| (1 <<< bit) else cur
      if bit = 0 then hRowGo isOn pixels width y xs 7 0 (acc ++ [cur'])
      else hRowGo isOn pixels width y xs (bit - 1) cur' acc

/-- One row of horizontal 1-bit packing. -/
def hRow (isOn : Pixel → Bool) (pixels : List Pixel) (width y : ℕ) :
    Except String (List ℕ) :=
  hRowGo isOn pixels width y (List.range width) 7 0 []

/-- Inner loop of the vertical orientation (`io.js` lines 92-104): `bit`
runs 7 down to 0, reading pixel `(x, yPage * 8 + (7 - bit))` when that row
exists. -/
def vPageGo (isOn : Pixel → Bool) (pixels : List Pixel)
    (width height x yPage : ℕ) : List ℕ → ℕ → Except String ℕ
  | [], cur => .ok cur
  | bit :: bits, cur =>
    let y := yPage * 8 + (7 - bit)
    if y < height then
      match pixAt pixels (y * width + x) with
      | .error e => .error e
      | .ok p =>
        vPageGo isOn pixels width height x yPage bits
          (if isOn p then cur ||| (1 <<< bit) else cur)
    else vPageGo isOn pixels width height x yPage bits cur

/-- One page byte of vertical packing. -/
def vPage (isOn : Pixel → Bool) (pixels : List Pixel)
    (width height x yPage : ℕ) : Except String ℕ :=
  vPageGo isOn pixels width height x yPage [7, 6, 5, 4, 3, 2, 1, 0] 0

/-- `io.js` `pack1bit`.  An orientation that is neither `"horizontal"` nor
`"vertical"` falls through both branches and the initial empty `bytes`
array is returned. -/
def pack1bit (pixels : List Pixel) (width height : ℕ)
    (orientation : String) : Except String (List ℕ) :=
  if orientation = "horizontal" then
    match exMap (fun y => hRow onPix pixels width y) (List.range height) with
    | .error e => .error e
    | .ok rows => .ok rows.flatten
  else if orientation = "vertical" then
    match exMap (fun x =>
        exMap (fun yPage => vPage onPix pixels width height x yPage)
          (List.range ((height + 7) / 8))) (List.range width) with
    | .error e => .error e
    | .ok cols => .ok cols.flatten
  else .ok []

/-- `io.js` `pack1bitAlpha`: same geometry, `alphaOn` predicate, and a bare
`else` branch, so every orientation other than `"horizontal"` packs
vertically. -/
def pack1bitAlpha (pixels : List Pixel) (width height : ℕ)
    (orientation : String) : Except String (List ℕ) :=
  if orientation = "horizontal" then
    match exMap (fun y => hRow alphaOn pixels width y) (List.range height) with
    | .error e => .error e
    | .ok rows => .ok rows.flatten
  else
    match exMap (fun x =>
        exMap (fun yPage => vPage alphaOn pixels width height x yPage)
          (List.range ((height + 7) / 8))) (List.range width) with
    | .error e => .error e
    | .ok cols => .ok cols.flatten

/-- `io.js` `packRGB565`: row-major (y outer, x inner), one word per pixel. -/
def packRGB565 (pixels : List Pixel) (width height : ℕ) :
    Except String (List ℕ) :=
  match exMap (fun y =>
      exMap (fun x =>
          match pixAt pixels (y * width + x) with
          | .error e => .error e
          | .ok p => .ok (rgbTo565 p.r p.g p.b)) (List.range width))
      (List.range height) with
  | .error e => .error e
  | .ok rows => .ok rows.flatten

/-- `io.js` `packRGB24`: row-major, pushes `r`, `g`, `b` per pixel. -/
def packRGB24 (pixels : List Pixel) (width height : ℕ) :
    Except String (List ℕ) :=
  match exMap (fun y =>
      exMap (fun x =>
          match pixAt pixels (y * width + x) with
          | .error e => .error e
          | .ok p => .ok [p.r, p.g, p.b]) (List.range width))
      (List.range height) with
  | .error e => .error e
  | .ok rows => .ok (rows.map List.flatten).flatten

/-- The RGBA32 packing inlined in `generateCppCode`
(`Pixel2CPP.jsx`, `HORIZONTAL_RGB888_32` branch): pushes `r, g, b, a`. -/
def packRGBA32 (pixels : List Pixel) (width height : ℕ) :
    Except String (List ℕ) :=
  match exMap (fun y =>
      exMap (fun x =>
          match pixAt pixels (y * width + x) with
          | .error e => .error e
          | .ok p => .ok [p.r, p.g, p.b, p.a]) (List.range width))
      (List.range height) with
  | .error e => .error e
  | .ok rows => .ok (rows.map List.flatten).flatten

/-- Fuel-driven binary length: `bitLen n` is the number of binary digits
of `n` (`0` for `0`). -/
def bitLenAux : ℕ → ℕ → ℕ
  | 0, _ => 0
  | fuel + 1, n => if n = 0 then 0 else bitLenAux fuel (n / 2) + 1

/-- The fuel `128` exceeds the bit length of every number arising in the
luma computation (all are below `2 ^ 120`). -/
def bitLen (n : ℕ) : ℕ := bitLenAux 128 n

/-- A nonnegative dyadic rational `num / 2 ^ exp`: the value of an
IEEE-754 double arising in `packGray4`'s luma expression (all of them
are nonnegative and normal, far from overflow and underflow). -/
structure Dbl where
  num : ℕ
  exp : ℕ
deriving DecidableEq

/-- IEEE-754 double rounding of an exact nonnegative dyadic: keep 53
significant bits, rounding to nearest with ties to even.  In the normal
range used here, the double produced by a JS `*`, `+` or `/` is exactly
this rounding of the exact result. -/
def roundDbl (v : Dbl) : Dbl :=
  let L := bitLen v.num
  if L ≤ 53 then v
  else
    let drop := L - 53
    let q := v.num / 2 ^ drop
    let r := v.num % 2 ^ drop
    let half := 2 ^ (drop - 1)
    let q2 := if half < r then q + 1
      else if r < half then q
      else if q % 2 = 0 then q else q + 1
    ⟨q2, v.exp - drop⟩

/-- Double multiplication: exact product, then rounding. -/
def dmul (a b : Dbl) : Dbl := roundDbl ⟨a.num * b.num, a.exp + b.exp⟩

/-- Double addition: exact aligned sum, then rounding. -/
def dadd (a b : Dbl) : Dbl :=
  let e := max a.exp b.exp
  roundDbl ⟨a.num * 2 ^ (e - a.exp) + b.num * 2 ^ (e - b.exp), e⟩

/-- Double division by 16: exact in binary (an exponent shift), the
rounding is the identity on an already-rounded operand. -/
def ddiv16 (a : Dbl) : Dbl := roundDbl ⟨a.num, a.exp + 4⟩

/-- The IEEE-754 double nearest `0.2126`: the value of the JS literal. -/
def c2126 : Dbl := ⟨1914930561557935, 53⟩

/-- The IEEE-754 double nearest `0.7152`: the value of the JS literal. -/
def c7152 : Dbl := ⟨6441948906990757, 53⟩

/-- The IEEE-754 double nearest `0.0722`: the value of the JS literal. -/
def c0722 : Dbl := ⟨5202558289538397, 56⟩

/-- Each weight constant is within half of its stored scale unit of its
decimal: `|cW.num / 2 ^ cW.exp - W / 10000| ≤ 1 / 2 ^ (cW.exp + 1)`,
stated over the integers. -/
theorem lumaWeight_near :
    Nat.dist (c2126.num * 10000) (2126 * 2 ^ c2126.exp) * 2 ≤ 10000 ∧
    Nat.dist (c7152.num * 10000) (7152 * 2 ^ c7152.exp) * 2 ≤ 10000 ∧
    Nat.dist (c0722.num * 10000) (722 * 2 ^ c0722.exp) * 2 ≤ 10000 := by
  refine ⟨by decide, by decide, by decide⟩

/-- `io.js` `packGray4` luma:
`Math.floor((0.2126 * p.r + 0.7152 * p.g + 0.0722 * p.b) / 16)`, the
sum evaluated left-associated in IEEE-754 double arithmetic exactly as
a JS engine evaluates it. -/
def lumaFloorDouble (p : Pixel) : ℕ :=
  let q := ddiv16 (dadd (dadd (dmul c2126 ⟨p.r, 0⟩) (dmul c7152 ⟨p.g, 0⟩))
    (dmul c0722 ⟨p.b, 0⟩))
  q.num / 2 ^ q.exp

/-- `io.js` `packGray4`: `Math.min(15, Math.max(0, luma))`. -/
def gray4 (p : Pixel) : ℕ :=
  min 15 (max 0 (lumaFloorDouble p))

/-- Inner loop of `packGray4` (`io.js` lines 196-214): `nibble` is `1`
when the next gray value goes to the high nibble of a fresh byte, `0`
when it completes the current byte. -/
def gRowGo (pixels : List Pixel) (width y : ℕ) :
    List ℕ → ℕ → ℕ → List ℕ → Except String (List ℕ)
  | [], nibble, cur, acc => if nibble = 0 then .ok (acc ++ [cur]) else .ok acc
  | x :: xs, nibble, cur, acc =>
    match pixAt pixels (y * width + x) with
    | .error e => .error e
    | .ok p =>
      let g := gray4 p
      if nibble = 1 then gRowGo pixels width y xs 0 (g <<< 4) acc
      else gRowGo pixels width y xs 1 0 (acc ++ [cur ||| g])

/-- `io.js` `packGray4`. -/
def packGray4 (pixels : List Pixel) (width height : ℕ) :
    Except String (List ℕ) :=
  match exMap (fun y => gRowGo pixels width y (List.range width) 1 0 [])
      (List.range height) with
  | .error e => .error e
  | .ok rows => .ok rows.flatten

/-! ### Specification-side pure descriptions of the packers -/

/-- MSB-first value of up to 8 bits, left-shifted so that a partial chunk
occupies the high-order positions with zero low-order padding. -/
def byteOfBits (bits : List Bool) : ℕ :=
  (bits.foldl (fun a b => 2 * a + (if b then 1 else 0)) 0) <<< (8 - bits.length)

/-- Chunk a row of bits into bytes of 8, MSB-first, a trailing partial
chunk padded with zeros in its low-order positions. -/
def bitsToBytes : List Bool → List ℕ
  | [] => []
  | [b0] => [byteOfBits [b0]]
  | [b0, b1] => [byteOfBits [b0, b1]]
  | [b0, b1, b2] => [byteOfBits [b0, b1, b2]]
  | [b0, b1, b2, b3] => [byteOfBits [b0, b1, b2, b3]]
  | [b0, b1, b2, b3, b4] => [byteOfBits [b0, b1, b2, b3, b4]]
  | [b0, b1, b2, b3, b4, b5] => [byteOfBits [b0, b1, b2, b3, b4, b5]]
  | [b0, b1, b2, b3, b4, b5, b6] => [byteOfBits [b0, b1, b2, b3, b4, b5, b6]]
  | b0 :: b1 :: b2 :: b3 :: b4 :: b5 :: b6 :: b7 :: rest =>
    byteOfBits [b0, b1, b2, b3, b4, b5, b6, b7] :: bitsToBytes rest

/-- Pure analogue of `hRowGo` over an already-extracted list of bits. -/
def packBitsGo : List Bool → ℕ → ℕ → List ℕ → List ℕ
  | [], bit, cur, acc => if bit ≠ 7 then acc ++ [cur] else acc
  | b :: bs, bit, cur, acc =>
    let cur' := if b then cur ||| (1 <<< bit) else cur
    if bit = 0 then packBitsGo bs 7 0 (acc ++ [cur'])
    else packBitsGo bs (bit - 1) cur' acc

/-- The on-bits of row `y`, left to right. -/
def rowOn (isOn : Pixel → Bool) (pixels : List Pixel) (width y : ℕ) :
    List Bool :=
  (List.range width).map fun x => isOn (pixAtD pixels (y * width + x))

/-- Row-major horizontal packing, each row chunked into fresh bytes. -/
def hSpec (isOn : Pixel → Bool) (pixels : List Pixel) (width height : ℕ) :
    List ℕ :=
  ((List.range height).map fun y =>
    bitsToBytes (rowOn isOn pixels width y)).flatten

/-- Pure analogue of `vPageGo`. -/
def pageBitsGo (isOn : Pixel → Bool) (pixels : List Pixel)
    (width height x yPage : ℕ) : List ℕ → ℕ → ℕ
  | [], cur => cur
  | bit :: bits, cur =>
    let y := yPage * 8 + (7 - bit)
    if y < height then
      pageBitsGo isOn pixels width height x yPage bits
        (if isOn (pixAtD pixels (y * width + x)) then cur ||| (1 <<< bit)
         else cur)
    else pageBitsGo isOn pixels width height x yPage bits cur

/-- The byte emitted for page `yPage` of column `x` in vertical packing. -/
def vPageByte (isOn : Pixel → Bool) (pixels : List Pixel)
    (width height x yPage : ℕ) : ℕ :=
  pageBitsGo isOn pixels width height x yPage [7, 6, 5, 4, 3, 2, 1, 0] 0

/-- Column-major vertical packing: all pages of column 0, then column 1, … -/
def vSpec (isOn : Pixel → Bool) (pixels : List Pixel) (width height : ℕ) :
    List ℕ :=
  ((List.range width).map fun x =>
    (List.range ((height + 7) / 8)).map fun yPage =>
      vPageByte isOn pixels width height x yPage).flatten

/-- Row-major list of RGB565 words. -/
def spec565 (pixels : List Pixel) (width height : ℕ) : List ℕ :=
  ((List.range height).map fun y =>
    (List.range width).map fun x =>
      let p := pixAtD pixels (y * width + x)
      rgbTo565 p.r p.g p.b).flatten

/-- The claimed word formula `((r>>3)<<11) | ((g>>2)<<5) | (b>>3)`,
written as in the specification (no masks). -/
def rgb565Claim (p : Pixel) : ℕ :=
  ((p.r >>> 3) <<< 11) ||| ((p.g >>> 2) <<< 5) ||| (p.b >>> 3)

/-- Pair 4-bit gray values into bytes: first of each pair in the high
nibble, second in the low nibble, an odd trailing value alone in the high
nibble. -/
def nibblePack : List ℕ → List ℕ
  | [] => []
  | [g] => [g <<< 4]
  | g1 :: g2 :: rest => ((g1 <<< 4) ||| g2) :: nibblePack rest

/-- Row-major 4-bit grayscale packing, fresh bytes per row. -/
def gray4Spec (pixels : List Pixel) (width height : ℕ) : List ℕ :=
  ((List.range height).map fun y =>
    nibblePack ((List.range width).map fun x =>
      gray4 (pixAtD pixels (y * width + x)))).flatten

/-- The specification's wording of the 4-bit gray value: `round` of the
luma quotient instead of the source's `Math.floor`.  Written with the
round-half-up integer division `(2 a + d) / (2 d)`;
`gray4RoundSpec_eq_round` below proves it equal to the literal
`round (… / 16)` of the spec. -/
def gray4RoundSpec (p : Pixel) : ℕ :=
  (min 15 (max 0
    (((2 * (2126 * p.r + 7152 * p.g + 722 * p.b) + 160000 : ℕ) : ℤ)
      / 320000))).toNat

/-- `gray4RoundSpec` is exactly
`min 15 (max 0 (round ((0.2126 r + 0.7152 g + 0.0722 b) / 16)))`. -/
theorem gray4RoundSpec_eq_round (p : Pixel) :
    gray4RoundSpec p
      = (min 15 (max 0 (round (((0.2126 : ℚ) * p.r + (0.7152 : ℚ) * p.g
          + (0.0722 : ℚ) * p.b) / 16)))).toNat := by
  have h : ((0.2126 : ℚ) * p.r + (0.7152 : ℚ) * p.g + (0.0722 : ℚ) * p.b) / 16
        + 1 / 2
      = ((2 * (2126 * p.r + 7152 * p.g + 722 * p.b) + 160000 : ℕ) : ℚ)
        / ((320000 : ℕ) : ℚ) := by
    push_cast
    ring_nf
  rw [gray4RoundSpec, round_eq, h, Rat.floor_natCast_div_natCast]
  push_cast
  rfl

deriving instance DecidableEq for Except

/-! ### Basic lemmas about the embedding -/

theorem pixAt_ok (pixels : List Pixel) (i : ℕ) (h : i < pixels.length) :
    pixAt pixels i = .ok (pixAtD pixels i) := by
  simp [pixAt, pixAtD, List.getElem?_eq_getElem h, List.getD_eq_getElem?_getD]

theorem exMap_ok {α β : Type} {f : α → Except String β} {g : α → β}
    (l : List α) (h : ∀ a ∈ l, f a = .ok (g a)) :
    exMap f l = .ok (l.map g) := by
  induction l with
  | nil => rfl
  | cons a l ih =>
    simp only [exMap, h a (by simp), ih (fun b hb => h b (by simp [hb])),
      List.map_cons]

theorem bitsToBytes_length :
    ∀ bits : List Bool, (bitsToBytes bits).length = (bits.length + 7) / 8 := by
  intro bits
  induction bits using bitsToBytes.induct with
  | case9 b0 b1 b2 b3 b4 b5 b6 b7 rest ih =>
    simp only [bitsToBytes, List.length_cons, ih]
    omega
  | _ => simp [bitsToBytes]

theorem index_lt {x y width height : ℕ} (hx : x < width) (hy : y < height) :
    y * width + x < width * height := by
  calc y * width + x < y * width + width := by omega
  _ = (y + 1) * width := by ring
  _ ≤ height * width := Nat.mul_le_mul_right width hy
  _ = width * height := Nat.mul_comm height width

theorem packBitsGo_chunk (b0 b1 b2 b3 b4 b5 b6 b7 : Bool) (rest : List Bool)
    (acc : List ℕ) :
    packBitsGo (b0 :: b1 :: b2 :: b3 :: b4 :: b5 :: b6 :: b7 :: rest) 7 0 acc
      = packBitsGo rest 7 0
          (acc ++ [byteOfBits [b0, b1, b2, b3, b4, b5, b6, b7]]) := by
  cases b0 <;> cases b1 <;> cases b2 <;> cases b3 <;> cases b4 <;> cases b5
    <;> cases b6 <;> cases b7 <;> rfl

theorem packBitsGo_spec :
    ∀ bits : List Bool, ∀ acc, packBitsGo bits 7 0 acc = acc ++ bitsToBytes bits := by
  intro bits
  induction bits using bitsToBytes.induct with
  | case1 => intro acc; simp [packBitsGo, bitsToBytes]
  | case2 b0 => intro acc; cases b0 <;> rfl
  | case3 b0 b1 => intro acc; cases b0 <;> cases b1 <;> rfl
  | case4 b0 b1 b2 => intro acc; cases b0 <;> cases b1 <;> cases b2 <;> rfl
  | case5 b0 b1 b2 b3 =>
    intro acc; cases b0 <;> cases b1 <;> cases b2 <;> cases b3 <;> rfl
  | case6 b0 b1 b2 b3 b4 =>
    intro acc
    cases b0 <;> cases b1 <;> cases b2 <;> cases b3 <;> cases b4 <;> rfl
  | case7 b0 b1 b2 b3 b4 b5 =>
    intro acc
    cases b0 <;> cases b1 <;> cases b2 <;> cases b3 <;> cases b4 <;> cases b5
      <;> rfl
  | case8 b0 b1 b2 b3 b4 b5 b6 =>
    intro acc
    cases b0 <;> cases b1 <;> cases b2 <;> cases b3 <;> cases b4 <;> cases b5
      <;> cases b6 <;> rfl
  | case9 b0 b1 b2 b3 b4 b5 b6 b7 rest ih =>
    intro acc
    rw [packBitsGo_chunk, ih, bitsToBytes]
    simp

theorem hRowGo_ok (isOn : Pixel → Bool) (pixels : List Pixel) (width y : ℕ) :
    ∀ (xs : List ℕ) (bit cur : ℕ) (acc : List ℕ),
      (∀ x ∈ xs, y * width + x < pixels.length) →
      hRowGo isOn pixels width y xs bit cur acc
        = .ok (packBitsGo
            (xs.map fun x => isOn (pixAtD pixels (y * width + x))) bit cur acc) := by
  intro xs
  induction xs with
  | nil =>
    intro bit cur acc _
    simp only [hRowGo, packBitsGo, List.map_nil]
    split <;> rfl
  | cons x xs ih =>
    intro bit cur acc h
    rw [hRowGo, pixAt_ok pixels _ (h x (List.mem_cons_self x xs))]
    simp only [packBitsGo, List.map_cons]
    split
    · exact ih 7 0 _ fun b hb => h b (List.mem_cons_of_mem x hb)
    · exact ih (bit - 1) _ acc fun b hb => h b (List.mem_cons_of_mem x hb)

theorem hRow_ok (isOn : Pixel → Bool) (pixels : List Pixel) (width y : ℕ)
    (h : ∀ x, x < width → y * width + x < pixels.length) :
    hRow isOn pixels width y = .ok (bitsToBytes (rowOn isOn pixels width y)) := by
  rw [hRow, hRowGo_ok isOn pixels width y _ 7 0 []
    (fun x hx => h x (List.mem_range.mp hx))]
  rw [packBitsGo_spec]
  rfl

theorem packH_ok (isOn : Pixel → Bool) (pixels : List Pixel) (width height : ℕ)
    (h : width * height ≤ pixels.length) :
    exMap (fun y => hRow isOn pixels width y) (List.range height)
      = .ok ((List.range height).map fun y =>
          bitsToBytes (rowOn isOn pixels width y)) :=
  exMap_ok _ fun y hy =>
    hRow_ok isOn pixels width y fun x hx =>
      lt_of_lt_of_le (index_lt hx (List.mem_range.mp hy)) h

theorem pack1bit_horizontal (pixels : List Pixel) (width height : ℕ)
    (h : width * height ≤ pixels.length) :
    pack1bit pixels width height "horizontal"
      = .ok (hSpec onPix pixels width height) := by
  rw [pack1bit, if_pos rfl, packH_ok onPix pixels width height h]
  rfl

theorem pack1bitAlpha_horizontal (pixels : List Pixel) (width height : ℕ)
    (h : width * height ≤ pixels.length) :
    pack1bitAlpha pixels width height "horizontal"
      = .ok (hSpec alphaOn pixels width height) := by
  rw [pack1bitAlpha, if_pos rfl, packH_ok alphaOn pixels width height h]
  rfl

theorem vPageGo_ok (isOn : Pixel → Bool) (pixels : List Pixel)
    (width height x yPage : ℕ) (hx : x < width)
    (hlen : width * height ≤ pixels.length) :
    ∀ (bits : List ℕ) (cur : ℕ),
      vPageGo isOn pixels width height x yPage bits cur
        = .ok (pageBitsGo isOn pixels width height x yPage bits cur) := by
  intro bits
  induction bits with
  | nil => intro cur; rfl
  | cons bit bits ih =>
    intro cur
    rw [vPageGo, pageBitsGo]
    split
    · next hy =>
      rw [pixAt_ok pixels _ (lt_of_lt_of_le (index_lt hx hy) hlen)]
      exact ih _
    · exact ih cur

theorem vPage_ok (isOn : Pixel → Bool) (pixels : List Pixel)
    (width height x yPage : ℕ) (hx : x < width)
    (hlen : width * height ≤ pixels.length) :
    vPage isOn pixels width height x yPage
      = .ok (vPageByte isOn pixels width height x yPage) :=
  vPageGo_ok isOn pixels width height x yPage hx hlen _ 0

theorem packV_ok (isOn : Pixel → Bool) (pixels : List Pixel)
    (width height : ℕ) (hlen : width * height ≤ pixels.length) :
    exMap (fun x =>
        exMap (fun yPage => vPage isOn pixels width height x yPage)
          (List.range ((height + 7) / 8))) (List.range width)
      = .ok ((List.range width).map fun x =>
          (List.range ((height + 7) / 8)).map fun yPage =>
            vPageByte isOn pixels width height x yPage) :=
  exMap_ok _ fun x hx =>
    exMap_ok _ fun yPage _ =>
      vPage_ok isOn pixels width height x yPage (List.mem_range.mp hx) hlen

theorem pack1bit_vertical (pixels : List Pixel) (width height : ℕ)
    (h : width * height ≤ pixels.length) :
    pack1bit pixels width height "vertical"
      = .ok (vSpec onPix pixels width height) := by
  rw [pack1bit, if_neg (by decide), if_pos rfl,
    packV_ok onPix pixels width height h]
  rfl

theorem pack1bitAlpha_vertical (pixels : List Pixel) (width height : ℕ)
    (orientation : String) (ho : orientation ≠ "horizontal")
    (h : width * height ≤ pixels.length) :
    pack1bitAlpha pixels width height orientation
      = .ok (vSpec alphaOn pixels width height) := by
  rw [pack1bitAlpha, if_neg ho, packV_ok alphaOn pixels width height h]
  rfl

theorem hSpec_length (isOn : Pixel → Bool) (pixels : List Pixel)
    (width height : ℕ) :
    (hSpec isOn pixels width height).length = ((width + 7) / 8) * height := by
  rw [hSpec, List.length_flatten, List.map_map]
  have h : ((List.range height).map
      (List.length ∘ fun y => bitsToBytes (rowOn isOn pixels width y)))
      = (List.range height).map (fun _ => (width + 7) / 8) := by
    apply List.map_congr_left
    intro y _
    simp [Function.comp, bitsToBytes_length, rowOn]
  rw [h, List.map_const', List.sum_replicate, smul_eq_mul, List.length_range]
  ring

theorem vSpec_length (isOn : Pixel → Bool) (pixels : List Pixel)
    (width height : ℕ) :
    (vSpec isOn pixels width height).length = width * ((height + 7) / 8) := by
  rw [vSpec, List.length_flatten, List.map_map]
  have h : ((List.range width).map
      (List.length ∘ fun x => (List.range ((height + 7) / 8)).map fun yPage =>
        vPageByte isOn pixels width height x yPage))
      = (List.range width).map (fun _ => (height + 7) / 8) := by
    apply List.map_congr_left
    intro x _
    simp [Function.comp]
  rw [h, List.map_const', List.sum_replicate, smul_eq_mul, List.length_range]

theorem pageBitsGo_testBit (isOn : Pixel → Bool) (pixels : List Pixel)
    (width height x yPage : ℕ) :
    ∀ (bits : List ℕ) (cur i : ℕ),
      (pageBitsGo isOn pixels width height x yPage bits cur).testBit i
        = (cur.testBit i || bits.any fun b => decide (b = i) &&
            (decide (yPage * 8 + (7 - b) < height) &&
             isOn (pixAtD pixels ((yPage * 8 + (7 - b)) * width + x)))) := by
  intro bits
  induction bits with
  | nil => intro cur i; simp [pageBitsGo]
  | cons b bits ih =>
    intro cur i
    rw [pageBitsGo]
    split
    · next hy =>
      rw [ih]
      by_cases hOn : isOn (pixAtD pixels ((yPage * 8 + (7 - b)) * width + x))
      · have hsl : (1 : ℕ) <<< b = 2 ^ b := by
          rw [Nat.shiftLeft_eq, one_mul]
        simp [hOn, hy, hsl, Nat.testBit_lor, Nat.testBit_two_pow,
          Bool.or_assoc, eq_comm]
      · simp [hOn, hy]
    · next hy =>
      rw [ih]
      simp [hy]

theorem vPageByte_testBit (isOn : Pixel → Bool) (pixels : List Pixel)
    (width height x yPage : ℕ) (i : ℕ) (hi : i ≤ 7) :
    (vPageByte isOn pixels width height x yPage).testBit i
      = (decide (yPage * 8 + (7 - i) < height) &&
         isOn (pixAtD pixels ((yPage * 8 + (7 - i)) * width + x))) := by
  rw [vPageByte, pageBitsGo_testBit]
  interval_cases i <;> simp

theorem bitsToBytes_testBit :
    ∀ (bits : List Bool) (i : ℕ), i < bits.length →
      ((bitsToBytes bits).getD (i / 8) 0).testBit (7 - i % 8)
        = bits.getD i false := by
  intro bits
  induction bits using bitsToBytes.induct with
  | case1 => intro i hi; simp at hi
  | case2 b0 =>
    intro i hi
    simp only [List.length_cons, List.length_nil] at hi
    interval_cases i <;> (revert b0; decide)
  | case3 b0 b1 =>
    intro i hi
    simp only [List.length_cons, List.length_nil] at hi
    interval_cases i <;> (revert b0 b1; decide)
  | case4 b0 b1 b2 =>
    intro i hi
    simp only [List.length_cons, List.length_nil] at hi
    interval_cases i <;> (revert b0 b1 b2; decide)
  | case5 b0 b1 b2 b3 =>
    intro i hi
    simp only [List.length_cons, List.length_nil] at hi
    interval_cases i <;> (revert b0 b1 b2 b3; decide)
  | case6 b0 b1 b2 b3 b4 =>
    intro i hi
    simp only [List.length_cons, List.length_nil] at hi
    interval_cases i <;> (revert b0 b1 b2 b3 b4; decide)
  | case7 b0 b1 b2 b3 b4 b5 =>
    intro i hi
    simp only [List.length_cons, List.length_nil] at hi
    interval_cases i <;> (revert b0 b1 b2 b3 b4 b5; decide)
  | case8 b0 b1 b2 b3 b4 b5 b6 =>
    intro i hi
    simp only [List.length_cons, List.length_nil] at hi
    interval_cases i <;> (revert b0 b1 b2 b3 b4 b5 b6; decide)
  | case9 b0 b1 b2 b3 b4 b5 b6 b7 rest ih =>
    intro i hi
    by_cases h8 : i < 8
    · have hdiv : i / 8 = 0 := by omega
      have hmod : i % 8 = i := by omega
      rw [hdiv, hmod, bitsToBytes]
      clear hi
      interval_cases i <;>
        (simp only [List.getD_cons_zero, List.getD_cons_succ]
         revert b0 b1 b2 b3 b4 b5 b6 b7; decide)
    · obtain ⟨j, rfl⟩ : ∃ j, i = j + 8 := ⟨i - 8, by omega⟩
      have hj1 : (j + 8) / 8 = j / 8 + 1 := by omega
      have hj2 : (j + 8) % 8 = j % 8 := by omega
      have hi' : j < rest.length := by
        simp only [List.length_cons] at hi
        omega
      have hrw : (b0 :: b1 :: b2 :: b3 :: b4 :: b5 :: b6 :: b7
          :: rest).getD (j + 8) false = rest.getD j false := by
        simp [List.getD_cons_succ]
      rw [hj1, hj2, bitsToBytes, List.getD_cons_succ, hrw, ih j hi']

theorem rowOn_getD (isOn : Pixel → Bool) (pixels : List Pixel)
    (width y x : ℕ) (hx : x < width) :
    (rowOn isOn pixels width y).getD x false
      = isOn (pixAtD pixels (y * width + x)) := by
  simp [rowOn, List.getD_eq_getElem?_getD, List.getElem?_range, hx]

theorem packRGB565_ok (pixels : List Pixel) (width height : ℕ)
    (h : width * height ≤ pixels.length) :
    packRGB565 pixels width height = .ok (spec565 pixels width height) := by
  rw [packRGB565,
    exMap_ok (g := fun y => (List.range width).map fun x =>
        let p := pixAtD pixels (y * width + x)
        rgbTo565 p.r p.g p.b)
      (List.range height) (fun y hy =>
        exMap_ok (List.range width) (fun x hx => by
          rw [pixAt_ok pixels _ (lt_of_lt_of_le
            (index_lt (List.mem_range.mp hx) (List.mem_range.mp hy)) h)]))]
  rfl

set_option maxRecDepth 4000 in
theorem rgbTo565_eq_claim (p : Pixel)
    (hr : p.r ≤ 255) (hg : p.g ≤ 255) (hb : p.b ≤ 255) :
    rgbTo565 p.r p.g p.b = rgb565Claim p := by
  have h1 : ∀ v, v ≤ 255 → (v >>> 3) &&& 0x1f = v >>> 3 := by decide
  have h2 : ∀ v, v ≤ 255 → (v >>> 2) &&& 0x3f = v >>> 2 := by decide
  rw [rgbTo565, rgb565Claim]
  simp only [h1 p.r hr, h2 p.g hg, h1 p.b hb]

theorem rgbTo565_lt (r g b : ℕ) : rgbTo565 r g b < 65536 := by
  have hR : (r >>> 3) &&& 0x1f ≤ 31 := Nat.and_le_right
  have hG : (g >>> 2) &&& 0x3f ≤ 63 := Nat.and_le_right
  have hB : (b >>> 3) &&& 0x1f ≤ 31 := Nat.and_le_right
  have h1 : ((r >>> 3) &&& 0x1f) <<< 11 < 65536 := by
    rw [Nat.shiftLeft_eq]
    omega
  have h2 : ((g >>> 2) &&& 0x3f) <<< 5 < 65536 := by
    rw [Nat.shiftLeft_eq]
    omega
  have h3 : ((b >>> 3) &&& 0x1f) < 65536 := by omega
  have h65536 : (65536 : ℕ) = 2 ^ 16 := by norm_num
  rw [rgbTo565]
  rw [h65536] at h1 h2 h3 ⊢
  exact Nat.or_lt_two_pow (Nat.or_lt_two_pow h1 h2) h3

theorem gray4_le (p : Pixel) : gray4 p ≤ 15 := by
  rw [gray4]
  omega

theorem gRowGo_ok (pixels : List Pixel) (width y : ℕ) :
    ∀ (xs : List ℕ) (acc : List ℕ),
      (∀ x ∈ xs, y * width + x < pixels.length) →
      gRowGo pixels width y xs 1 0 acc
        = .ok (acc ++ nibblePack
            (xs.map fun x => gray4 (pixAtD pixels (y * width + x)))) := by
  intro xs
  induction xs using nibblePack.induct with
  | case1 => intro acc _; simp [gRowGo, nibblePack]
  | case2 x =>
    intro acc h
    rw [gRowGo, pixAt_ok pixels _ (h x (by simp))]
    simp [gRowGo, nibblePack]
  | case3 x1 x2 rest ih =>
    intro acc h
    rw [gRowGo, pixAt_ok pixels _ (h x1 (by simp))]
    simp only []
    rw [gRowGo, pixAt_ok pixels _ (h x2 (by simp))]
    simp only []
    rw [ih _ (fun x hx => h x (by simp [hx]))]
    simp [nibblePack]

theorem packGray4_ok (pixels : List Pixel) (width height : ℕ)
    (h : width * height ≤ pixels.length) :
    packGray4 pixels width height = .ok (gray4Spec pixels width height) := by
  rw [packGray4,
    exMap_ok (g := fun y => nibblePack ((List.range width).map fun x =>
        gray4 (pixAtD pixels (y * width + x))))
      (List.range height) (fun y hy => by
        rw [gRowGo_ok pixels width y (List.range width) []
          (fun x hx => lt_of_lt_of_le
            (index_lt (List.mem_range.mp hx) (List.mem_range.mp hy)) h)]
        simp)]
  rfl

theorem pixAtD_take (pixels : List Pixel) (n i : ℕ) (hi : i < n) :
    pixAtD (pixels.take n) i = pixAtD pixels i := by
  simp [pixAtD, List.getD_eq_getElem?_getD, List.getElem?_take, hi]

theorem rowOn_take (isOn : Pixel → Bool) (pixels : List Pixel)
    (width height y : ℕ) (hy : y < height) :
    rowOn isOn (pixels.take (width * height)) width y
      = rowOn isOn pixels width y := by
  rw [rowOn, rowOn]
  apply List.map_congr_left
  intro x hx
  rw [pixAtD_take pixels _ _ (index_lt (List.mem_range.mp hx) hy)]

theorem hSpec_take (isOn : Pixel → Bool) (pixels : List Pixel)
    (width height : ℕ) :
    hSpec isOn (pixels.take (width * height)) width height
      = hSpec isOn pixels width height := by
  rw [hSpec, hSpec]
  congr 1
  apply List.map_congr_left
  intro y hy
  rw [rowOn_take isOn pixels width height y (List.mem_range.mp hy)]

theorem pageBitsGo_take (isOn : Pixel → Bool) (pixels : List Pixel)
    (width height x yPage : ℕ) (hx : x < width) :
    ∀ (bits : List ℕ) (cur : ℕ),
      pageBitsGo isOn (pixels.take (width * height)) width height x yPage
          bits cur
        = pageBitsGo isOn pixels width height x yPage bits cur := by
  intro bits
  induction bits with
  | nil => intro cur; rfl
  | cons b bits ih =>
    intro cur
    rw [pageBitsGo, pageBitsGo]
    split
    · next hy => rw [pixAtD_take pixels _ _ (index_lt hx hy), ih]
    · exact ih cur

theorem vSpec_take (isOn : Pixel → Bool) (pixels : List Pixel)
    (width height : ℕ) :
    vSpec isOn (pixels.take (width * height)) width height
      = vSpec isOn pixels width height := by
  rw [vSpec, vSpec]
  congr 1
  apply List.map_congr_left
  intro x hx
  apply List.map_congr_left
  intro yPage _
  rw [vPageByte, vPageByte,
    pageBitsGo_take isOn pixels width height x yPage (List.mem_range.mp hx)]

theorem spec565_take (pixels : List Pixel) (width height : ℕ) :
    spec565 (pixels.take (width * height)) width height
      = spec565 pixels width height := by
  rw [spec565, spec565]
  congr 1
  apply List.map_congr_left
  intro y hy
  apply List.map_congr_left
  intro x hx
  rw [pixAtD_take pixels _ _
    (index_lt (List.mem_range.mp hx) (List.mem_range.mp hy))]

/-! ### Code generation layer (`src/Pixel2CPP.jsx`)

String literals below transcribe the JS template literals; `\x7b`/`\x7d`
are the literal brace characters of the emitted C++ text, and the JS
interpolations `$\x7b...\x7d` become string concatenation. -/

/-- JS `v.toString(16).toUpperCase()`. -/
def toHexUpper (n : ℕ) : String :=
  String.mk ((Nat.toDigits 16 n).map Char.toUpper)

/-- JS `s.padStart(n, "0")`. -/
def padZero (s : String) (n : ℕ) : String :=
  String.mk (List.replicate (n - s.length) '0') ++ s

/-- `io.js` `hex565`. -/
def hex565 (v : ℕ) : String := "0x" ++ padZero (toHexUpper v) 4

/-- The byte formatter shared by the output-format generators:
4 hex digits for `uint16_t` elements, 2 otherwise. -/
def formatByte (dataType : String) (b : ℕ) : String :=
  if dataType = "uint16_t" then "0x" ++ padZero (toHexUpper b) 4
  else "0x" ++ padZero (toHexUpper b) 2

/-- JS `s.includes(pat)`. -/
def strIncludes (s pat : String) : Bool :=
  decide (pat.toList <:+: s.toList)

/-- The character class `[a-zA-Z0-9_]` of the sanitization regex. -/
def wordChar (c : Char) : Bool :=
  ('a' ≤ c && c ≤ 'z') || ('A' ≤ c && c ≤ 'Z') || ('0' ≤ c && c ≤ '9')
    || (c == '_')

/-- `Pixel2CPP.jsx` line 193 / 620:
`name.replace(/[^a-zA-Z0-9_]/g, "_")`. -/
def sanitizeName (name : String) : String :=
  String.mk (name.data.map fun c => if wordChar c then c else '_')

/-- `generatePlainBytes` (the `safeName` parameter is unused in the
source's template as well). -/
def generatePlainBytes (bytes : List ℕ) (_safeName : String) (w h : ℕ)
    (dataType : String) : String :=
  let byteStr := String.intercalate ", " (bytes.map (formatByte dataType))
  "// Generated by Pixel2CPP - Plain bytes format\n// " ++ toString w
    ++ "x" ++ toString h ++ " pixels, " ++ toString bytes.length
    ++ " bytes total\n// Data type: " ++ dataType ++ "\n\n" ++ byteStr

/-- `generateArduinoCode`: dispatches on substrings of the draw mode. -/
def generateArduinoCode (bytes : List ℕ) (safeName : String) (w h : ℕ)
    (dataType dataFormat drawMode : String) : String :=
  let byteStr := String.intercalate ", " (bytes.map (formatByte dataType))
  if strIncludes drawMode "1BIT" then
    "// Generated by Pixel2CPP (" ++ drawMode
      ++ ")\n#include <Adafruit_GFX.h>\n#include <Adafruit_SSD1306.h>\n\nconst uint16_t "
      ++ safeName ++ "_w = " ++ toString w ++ ";\nconst uint16_t "
      ++ safeName ++ "_h = " ++ toString h ++ ";\nconst " ++ dataType
      ++ " " ++ safeName ++ "_" ++ dataFormat ++ "[] PROGMEM = \x7b\n  "
      ++ byteStr
      ++ "\n\x7d;\n\nAdafruit_SSD1306 display(128, 64, &Wire, -1);\n\nvoid setup() \x7b\n  display.begin(SSD1306_SWITCHCAPVCC, 0x3C);\n  display.clearDisplay();\n  display.drawBitmap(0, 0, "
      ++ safeName ++ "_" ++ dataFormat ++ ", " ++ safeName ++ "_w, "
      ++ safeName
      ++ "_h, 1);\n  display.display();\n\x7d\n\nvoid loop() \x7b\x7d"
  else if strIncludes drawMode "RGB565" then
    "// Generated by Pixel2CPP (RGB565)\n#include <Adafruit_GFX.h>\n#include <Adafruit_ST7735.h>\n\nconst uint16_t "
      ++ safeName ++ "_w = " ++ toString w ++ ";\nconst uint16_t "
      ++ safeName ++ "_h = " ++ toString h ++ ";\nconst " ++ dataType
      ++ " " ++ safeName ++ "_" ++ dataFormat ++ "[] PROGMEM = \x7b\n  "
      ++ byteStr
      ++ "\n\x7d;\n\n#define TFT_CS   10\n#define TFT_RST  9\n#define TFT_DC   8\n\nAdafruit_ST7735 tft = Adafruit_ST7735(TFT_CS, TFT_DC, TFT_RST);\n\nvoid setup() \x7b\n  tft.initR(INITR_BLACKTAB);\n  tft.fillScreen(ST77XX_BLACK);\n  drawImage(0, 0);\n\x7d\n\nvoid drawImage(int16_t x0, int16_t y0) \x7b\n  tft.startWrite();\n  tft.setAddrWindow(x0, y0, "
      ++ safeName ++ "_w, " ++ safeName
      ++ "_h);\n  for (uint16_t i = 0; i < " ++ safeName ++ "_w * "
      ++ safeName
      ++ "_h; i++) \x7b\n    uint16_t color = pgm_read_word(&" ++ safeName
      ++ "_" ++ dataFormat
      ++ "[i]);\n    tft.writePixel(color);\n  \x7d\n  tft.endWrite();\n\x7d\n\nvoid loop() \x7b\x7d"
  else
    "// Generated by Pixel2CPP (" ++ drawMode
      ++ ")\n#include <Adafruit_GFX.h>\n\nconst uint16_t " ++ safeName
      ++ "_w = " ++ toString w ++ ";\nconst uint16_t " ++ safeName
      ++ "_h = " ++ toString h ++ ";\nconst " ++ dataType ++ " "
      ++ safeName ++ "_" ++ dataFormat ++ "[] PROGMEM = \x7b\n  "
      ++ byteStr
      ++ "\n\x7d;\n\n// Add your display setup and drawing code here"

/-- `generateArduinoSingleBitmap` (the `dataFormat` parameter is unused
in the source's template as well). -/
def generateArduinoSingleBitmap (bytes : List ℕ) (safeName : String)
    (w h : ℕ) (dataType _dataFormat : String) : String :=
  let byteStr := String.intercalate ", " (bytes.map (formatByte dataType))
  "// Single bitmap array - " ++ safeName ++ "\n// " ++ toString w ++ "x"
    ++ toString h ++ " pixels, " ++ toString bytes.length
    ++ " bytes\nconst " ++ dataType ++ " " ++ safeName
    ++ "[] PROGMEM = \x7b " ++ byteStr ++ " \x7d;"

/-- `generateGFXBitmapFont`. -/
def generateGFXBitmapFont (bytes : List ℕ) (safeName : String)
    (w h : ℕ) : String :=
  let byteStr := String.intercalate ", "
    (bytes.map fun b => "0x" ++ padZero (toHexUpper b) 2)
  "// GFX Bitmap Font format - " ++ safeName
    ++ "\n#include <Adafruit_GFX.h>\n\nconst uint8_t " ++ safeName
    ++ "Bitmaps[] PROGMEM = \x7b\n  " ++ byteStr
    ++ "\n\x7d;\n\nconst GFXglyph " ++ safeName
    ++ "Glyphs[] PROGMEM = \x7b\n  \x7b 0, " ++ toString w ++ ", "
    ++ toString h ++ ", " ++ toString w
    ++ ", 0, 0 \x7d // Single glyph covering entire bitmap\n\x7d;\n\nconst GFXfont "
    ++ safeName ++ " PROGMEM = \x7b\n  (uint8_t *)" ++ safeName
    ++ "Bitmaps,\n  (GFXglyph *)" ++ safeName ++ "Glyphs,\n  0, 0, "
    ++ toString h ++ "\n\x7d;"

/-- The legacy `HORIZONTAL_1BIT` sketch of `generateCppCode`
(`Pixel2CPP.jsx` lines 243-264). -/
def legacy1bitSketch (safeName : String) (w h : ℕ) (byteStr : String) :
    String :=
  "// Generated by Pixel2CPP (1-bit)\n#include <Adafruit_GFX.h>\n#include <Adafruit_SSD1306.h>\n\nconst uint16_t "
    ++ safeName ++ "_w = " ++ toString w ++ ";\nconst uint16_t "
    ++ safeName ++ "_h = " ++ toString h ++ ";\nconst uint8_t "
    ++ safeName ++ "_bits[] PROGMEM = \x7b\n  " ++ byteStr
    ++ "\n\x7d;\n\nAdafruit_SSD1306 display(128, 64, &Wire, -1);\n\nvoid setup()\x7b\n  display.begin(SSD1306_SWITCHCAPVCC, 0x3C);\n  display.clearDisplay();\n  display.drawBitmap(0, 0, "
    ++ safeName ++ "_bits, " ++ safeName ++ "_w, " ++ safeName
    ++ "_h, 1);\n  display.display();\n\x7d\n\nvoid loop()\x7b\x7d"

/-- The legacy `HORIZONTAL_RGB565` sketch of `generateCppCode`
(`Pixel2CPP.jsx` lines 266-323). -/
def legacyRGB565Sketch (safeName : String) (w h : ℕ) (wordStr : String) :
    String :=
  "// Generated by Pixel2CPP (RGB565 for TFT displays)\n#include <Adafruit_GFX.h>\n#include <Adafruit_ST7735.h>  // Use ST7789, ILI9341, etc. for your display\n\nconst uint16_t "
    ++ safeName ++ "_w = " ++ toString w ++ ";\nconst uint16_t "
    ++ safeName ++ "_h = " ++ toString h ++ ";\nconst uint16_t "
    ++ safeName ++ "_pixels[] PROGMEM = \x7b\n  " ++ wordStr
    ++ "\n\x7d;\n\n// Define pins for your display (adjust for your setup)\n#define TFT_CS   10\n#define TFT_RST  9\n#define TFT_DC   8\n\nAdafruit_ST7735 tft = Adafruit_ST7735(TFT_CS, TFT_DC, TFT_RST);\n\nvoid setup() \x7b\n  Serial.begin(9600);\n  \n  // Initialize display\n  tft.initR(INITR_BLACKTAB);  // Use INITR_GREENTAB, INITR_REDTAB for other variants\n  tft.setRotation(0);         // Adjust rotation as needed (0-3)\n  tft.fillScreen(ST77XX_BLACK);\n  \n  // Display the image at position (0, 0)\n  drawImage(0, 0);\n\x7d\n\nvoid loop() \x7b\n  // Your main code here\n\x7d\n\nvoid drawImage(int16_t x0, int16_t y0) \x7b\n  // Fast method: set address window and write pixels directly\n  tft.startWrite();\n  tft.setAddrWindow(x0, y0, "
    ++ safeName ++ "_w, " ++ safeName
    ++ "_h);\n  \n  for (uint16_t i = 0; i < " ++ safeName ++ "_w * "
    ++ safeName ++ "_h; i++) \x7b\n    uint16_t color = pgm_read_word(&"
    ++ safeName
    ++ "_pixels[i]);\n    tft.writePixel(color);\n  \x7d\n  \n  tft.endWrite();\n\x7d\n\n/* Alternative method (slower but more flexible):\nvoid drawImagePixelByPixel(int16_t x0, int16_t y0) \x7b\n  for (uint16_t y = 0; y < "
    ++ safeName ++ "_h; y++) \x7b\n    for (uint16_t x = 0; x < "
    ++ safeName
    ++ "_w; x++) \x7b\n      uint16_t color = pgm_read_word(&" ++ safeName
    ++ "_pixels[y * " ++ safeName
    ++ "_w + x]);\n      tft.drawPixel(x0 + x, y0 + y, color);\n    \x7d\n  \x7d\n\x7d\n*/"

/-- The draw-mode dispatch at the top of `generateCppCode`
(`Pixel2CPP.jsx` lines 196-230): determines `bytes`, `dataType` and
`dataFormat`.  `none` models the JS variables staying `undefined` when
no branch matches; a packing error (thrown exception) propagates. -/
def computeBytes (drawMode : String) (data : List Pixel) (w h : ℕ) :
    Except String (Option (List ℕ × String × String)) :=
  if drawMode = "HORIZONTAL_1BIT" then
    match pack1bit data w h "horizontal" with
    | .error e => .error e
    | .ok b => .ok (some (b, "uint8_t", "bits"))
  else if drawMode = "VERTICAL_1BIT" then
    match pack1bit data w h "vertical" with
    | .error e => .error e
    | .ok b => .ok (some (b, "uint8_t", "bits"))
  else if drawMode = "HORIZONTAL_ALPHA" then
    match pack1bitAlpha data w h "horizontal" with
    | .error e => .error e
    | .ok b => .ok (some (b, "uint8_t", "alpha"))
  else if drawMode = "HORIZONTAL_RGB565" then
    match packRGB565 data w h with
    | .error e => .error e
    | .ok b => .ok (some (b, "uint16_t", "pixels"))
  else if drawMode = "HORIZONTAL_RGB888_24" then
    match packRGB24 data w h with
    | .error e => .error e
    | .ok b => .ok (some (b, "uint8_t", "pixels"))
  else if drawMode = "HORIZONTAL_RGB888_32" then
    match packRGBA32 data w h with
    | .error e => .error e
    | .ok b => .ok (some (b, "uint8_t", "pixels"))
  else .ok none

/-- `generateCppCode` (`Pixel2CPP.jsx` lines 192-493).
Result modelling: `.ok (some s)` is a returned string, `.ok none` would
be a silent `return undefined` (no path below produces it), and
`.error` is a thrown JS exception:
* with a recognized output format but `bytes` undefined, the generator
  body evaluates `bytes.map(...)` on `undefined` and throws a
  `TypeError`;
* past the four recognized output formats and the two legacy draw-mode
  branches, the source reaches `mode === "RGB24"` where `mode` is an
  undeclared identifier, which throws a `ReferenceError` before any
  further branch or the implicit `undefined` return can be reached. -/
def generateCppCode (drawMode outputFormat name : String)
    (data : List Pixel) (w h : ℕ) : Except String (Option String) :=
  let safeName := sanitizeName name
  match computeBytes drawMode data w h with
  | .error e => .error e
  | .ok packed =>
    if outputFormat = "PLAIN_BYTES" then
      match packed with
      | some (bytes, dataType, _) =>
        .ok (some (generatePlainBytes bytes safeName w h dataType))
      | none => .error "TypeError: cannot read properties of undefined"
    else if outputFormat = "ARDUINO_CODE" then
      match packed with
      | some (bytes, dataType, dataFormat) =>
        .ok (some (generateArduinoCode bytes safeName w h dataType
          dataFormat drawMode))
      | none => .error "TypeError: cannot read properties of undefined"
    else if outputFormat = "ARDUINO_SINGLE_BITMAP" then
      match packed with
      | some (bytes, dataType, dataFormat) =>
        .ok (some (generateArduinoSingleBitmap bytes safeName w h dataType
          dataFormat))
      | none => .error "TypeError: cannot read properties of undefined"
    else if outputFormat = "GFX_BITMAP_FONT" then
      match packed with
      | some (bytes, _, _) =>
        .ok (some (generateGFXBitmapFont bytes safeName w h))
      | none => .error "TypeError: cannot read properties of undefined"
    else if drawMode = "HORIZONTAL_1BIT" then
      match packed with
      | some (bytes, _, _) =>
        .ok (some (legacy1bitSketch safeName w h
          (String.intercalate ", " (bytes.map (formatByte "uint8_t")))))
      | none => .error "TypeError: cannot read properties of undefined"
    else if drawMode = "HORIZONTAL_RGB565" then
      match packRGB565 data w h with
      | .error e => .error e
      | .ok words =>
        .ok (some (legacyRGB565Sketch safeName w h
          (String.intercalate ", " (words.map hex565))))
    else .error "ReferenceError: mode is not defined"

/-- `exportCpp` (`Pixel2CPP.jsx` lines 619-623): the name of the
downloaded file. -/
def exportFileName (name : String) : String :=
  sanitizeName name ++ ".h"

/-! ### Remaining support lemmas -/

theorem onPix_iff_382 (p : Pixel) :
    onPix p = decide (382 < p.r + p.g + p.b) := by
  rw [onPix, decide_eq_decide]
  omega

theorem rowOn_length (isOn : Pixel → Bool) (pixels : List Pixel)
    (width y : ℕ) : (rowOn isOn pixels width y).length = width := by
  simp [rowOn]

theorem spec565_length (pixels : List Pixel) (width height : ℕ) :
    (spec565 pixels width height).length = width * height := by
  rw [spec565, List.length_flatten, List.map_map]
  have h : ((List.range height).map
      (List.length ∘ fun y => (List.range width).map fun x =>
        let p := pixAtD pixels (y * width + x)
        rgbTo565 p.r p.g p.b))
      = (List.range height).map (fun _ => width) := by
    apply List.map_congr_left
    intro y _
    simp [Function.comp]
  rw [h, List.map_const', List.sum_replicate, smul_eq_mul, List.length_range]
  ring

theorem spec565_mem_lt (pixels : List Pixel) (width height : ℕ) (v : ℕ)
    (hv : v ∈ spec565 pixels width height) : v < 65536 := by
  rw [spec565] at hv
  simp only [List.mem_flatten, List.mem_map] at hv
  obtain ⟨row, ⟨y, _, hrow⟩, hvrow⟩ := hv
  rw [← hrow] at hvrow
  simp only [List.mem_map] at hvrow
  obtain ⟨x, _, hvx⟩ := hvrow
  rw [← hvx]
  exact rgbTo565_lt _ _ _

theorem sanitizeName_idem (name : String) :
    sanitizeName (sanitizeName name) = sanitizeName name := by
  rw [sanitizeName, sanitizeName]
  simp only [List.map_map, Function.comp]
  congr 1
  apply List.map_congr_left
  intro c _
  by_cases h : wordChar c = true
  · simp [h]
  · simp only [Bool.not_eq_true] at h
    simp [h]

/-! ### Claim theorems -/

/-- C1 (counterexample): the claim says the emitted bit is 1 iff
`r + g + b > 381`.  The pixel `(255, 127, 0)` has channel sum 382 > 381,
yet `pack1bit` emits bit 0 in both orientations, because the source
compares against `(255 * 3) / 2 = 382.5`. -/
theorem C1_counterexample :
    381 < 255 + 127 + 0 ∧
    pack1bit [⟨255, 127, 0, 255⟩] 1 1 "horizontal" = Except.ok [0] ∧
    pack1bit [⟨255, 127, 0, 255⟩] 1 1 "vertical" = Except.ok [0] := by
  refine ⟨by omega, by decide, by decide⟩

/-- C1 (amended): for every pixel of the buffer, in either orientation,
the emitted bit (read from the byte stream at the pixel's position) is 1
iff `r + g + b > 382` (the source's threshold is the JS double
`(255 * 3) / 2 = 382.5`). -/
theorem C1_threshold (pixels : List Pixel) (width height x y : ℕ)
    (hlen : width * height ≤ pixels.length) (hx : x < width)
    (hy : y < height) :
    pack1bit pixels width height "horizontal"
      = .ok (hSpec onPix pixels width height) ∧
    pack1bit pixels width height "vertical"
      = .ok (vSpec onPix pixels width height) ∧
    ((bitsToBytes (rowOn onPix pixels width y)).getD (x / 8) 0).testBit
        (7 - x % 8)
      = decide (382 < (pixAtD pixels (y * width + x)).r
          + (pixAtD pixels (y * width + x)).g
          + (pixAtD pixels (y * width + x)).b) ∧
    (vPageByte onPix pixels width height x (y / 8)).testBit (7 - y % 8)
      = decide (382 < (pixAtD pixels (y * width + x)).r
          + (pixAtD pixels (y * width + x)).g
          + (pixAtD pixels (y * width + x)).b) := by
  refine ⟨pack1bit_horizontal pixels width height hlen,
    pack1bit_vertical pixels width height hlen, ?_, ?_⟩
  · rw [bitsToBytes_testBit _ x (by rw [rowOn_length]; exact hx),
      rowOn_getD onPix pixels width y x hx, onPix_iff_382]
  · rw [vPageByte_testBit onPix pixels width height x (y / 8) (7 - y % 8)
      (by omega)]
    have h1 : y / 8 * 8 + (7 - (7 - y % 8)) = y := by omega
    rw [h1, decide_eq_true (show y < height from hy), Bool.true_and,
      onPix_iff_382]

/-- C1 (witness): the amended theorem at the pixel `(255, 128, 0)`
(sum 383 > 382, bit 1) in a 1×1 buffer. -/
theorem C1_threshold_witness :
    pack1bit [⟨255, 128, 0, 255⟩] 1 1 "horizontal" = Except.ok [128] ∧
    (vPageByte onPix [⟨255, 128, 0, 255⟩] 1 1 0 0).testBit 7 = true := by
  have h := C1_threshold [⟨255, 128, 0, 255⟩] 1 1 0 0 (by decide)
    (by decide) (by decide)
  exact ⟨h.1.trans (by decide), h.2.2.2.trans (by decide)⟩

/-- C2 (counterexample): the claim says every packer rejects a buffer
whose length differs from `width × height` before packing.  A 2-pixel
buffer packed as 1×1 is accepted by `pack1bit` and `packRGB565` and the
excess pixel is silently ignored. -/
theorem C2_counterexample :
    ([(⟨255, 255, 255, 255⟩ : Pixel), ⟨255, 255, 255, 255⟩]).length ≠ 1 * 1 ∧
    pack1bit [⟨255, 255, 255, 255⟩, ⟨255, 255, 255, 255⟩] 1 1 "horizontal"
      = Except.ok [128] ∧
    packRGB565 [⟨255, 255, 255, 255⟩, ⟨255, 255, 255, 255⟩] 1 1
      = Except.ok [65535] := by
  refine ⟨by decide, by decide, by decide⟩

/-- C2 (amended): the packers perform no length validation.  Any buffer
with at least `width × height` pixels is packed successfully, reading
only the first `width × height` entries and silently ignoring the
excess; only a buffer too short for an accessed index fails, and it
fails during packing (at the out-of-bounds read), not before. -/
theorem C2_no_length_check (pixels : List Pixel) (width height : ℕ)
    (h : width * height ≤ pixels.length) :
    pack1bit pixels width height "horizontal"
      = pack1bit (pixels.take (width * height)) width height "horizontal" ∧
    (pack1bit pixels width height "horizontal").isOk = true ∧
    pack1bit pixels width height "vertical"
      = pack1bit (pixels.take (width * height)) width height "vertical" ∧
    (pack1bit pixels width height "vertical").isOk = true ∧
    packRGB565 pixels width height
      = packRGB565 (pixels.take (width * height)) width height ∧
    (packRGB565 pixels width height).isOk = true := by
  have htake : width * height ≤ (pixels.take (width * height)).length := by
    rw [List.length_take]
    omega
  refine ⟨?_, ?_, ?_, ?_, ?_, ?_⟩
  · rw [pack1bit_horizontal pixels width height h,
      pack1bit_horizontal _ width height htake, hSpec_take]
  · rw [pack1bit_horizontal pixels width height h]; rfl
  · rw [pack1bit_vertical pixels width height h,
      pack1bit_vertical _ width height htake, vSpec_take]
  · rw [pack1bit_vertical pixels width height h]; rfl
  · rw [packRGB565_ok pixels width height h,
      packRGB565_ok _ width height htake, spec565_take]
  · rw [packRGB565_ok pixels width height h]; rfl

/-- C2 (witness): the amended theorem at the oversized 2-pixel buffer
packed as 1×1. -/
theorem C2_no_length_check_witness :
    pack1bit [⟨255, 255, 255, 255⟩, ⟨0, 0, 0, 255⟩] 1 1 "horizontal"
      = pack1bit ([(⟨255, 255, 255, 255⟩ : Pixel), ⟨0, 0, 0, 255⟩].take
          (1 * 1)) 1 1 "horizontal" ∧
    (pack1bit [⟨255, 255, 255, 255⟩, ⟨0, 0, 0, 255⟩] 1 1
      "horizontal").isOk = true := by
  have h := C2_no_length_check
    [⟨255, 255, 255, 255⟩, ⟨0, 0, 0, 255⟩] 1 1 (by decide)
  exact ⟨h.1, h.2.1⟩

/-- C3 (counterexample): the claim says every word of `packRGB565` has
bit 15 equal to 0.  A pure-red pixel yields the word `0xF800`, whose bit
15 is 1 (it is the top bit of the 5-bit red field). -/
theorem C3_counterexample :
    packRGB565 [⟨255, 0, 0, 255⟩] 1 1 = Except.ok [0xF800] ∧
    Nat.testBit 0xF800 15 = true := by
  refine ⟨by decide, by decide⟩

/-- C3 (amended): for a buffer of length `w * h` with 8-bit channels,
`packRGB565` returns exactly `w * h` words and every word fits in 16
bits (is `< 65536`); bit 15 carries the top bit of the red field and is
not always 0. -/
theorem C3_length_and_range (pixels : List Pixel) (width height : ℕ)
    (hlen : pixels.length = width * height)
    (hchan : ∀ p ∈ pixels, p.r ≤ 255 ∧ p.g ≤ 255 ∧ p.b ≤ 255) :
    packRGB565 pixels width height = .ok (spec565 pixels width height) ∧
    (spec565 pixels width height).length = width * height ∧
    ∀ v ∈ spec565 pixels width height, v < 65536 := by
  exact ⟨packRGB565_ok pixels width height (le_of_eq hlen.symm),
    spec565_length pixels width height,
    fun v hv => spec565_mem_lt pixels width height v hv⟩

/-- C3 (witness): the amended theorem at the 3×1 red/green/blue buffer. -/
theorem C3_length_and_range_witness :
    packRGB565 [⟨255, 0, 0, 255⟩, ⟨0, 255, 0, 255⟩, ⟨0, 0, 255, 255⟩] 3 1
      = Except.ok [0xF800, 0x07E0, 0x001F] ∧
    (spec565 [⟨255, 0, 0, 255⟩, ⟨0, 255, 0, 255⟩, ⟨0, 0, 255, 255⟩]
      3 1).length = 3 * 1 := by
  have h := C3_length_and_range
    [⟨255, 0, 0, 255⟩, ⟨0, 255, 0, 255⟩, ⟨0, 0, 255, 255⟩] 3 1
    (by decide) (by decide)
  exact ⟨h.1.trans (by decide), h.2.1⟩

/-- C4 (counterexample): the claim computes the gray value with `round`.
For the pixel `(0, 40, 0)` the double luma is `28.607999999999997` and
the quotient `1.7879999999999998`, which the source floors to 1 (byte
`0x10`), while the claim's `round` of `28.608 / 16 = 1.788` gives 2
(byte `0x20`). -/
theorem C4_counterexample :
    packGray4 [⟨0, 40, 0, 255⟩] 1 1 = Except.ok [16] ∧
    gray4RoundSpec ⟨0, 40, 0, 255⟩ = 2 ∧
    (16 : ℕ) ≠ 2 <<< 4 := by
  refine ⟨by decide, by decide, by decide⟩

/-- C4 (amended): `packGray4` computes each pixel's 4-bit gray value as
`min 15 (max 0 ⌊luma / 16⌋)` — `floor`, not `round` — where `luma` is
the IEEE-754 double evaluation of `0.2126 r + 0.7152 g + 0.0722 b`
(`lumaFloorDouble`, the exact bit-level model of the source's
arithmetic), so the value always lies in `[0, 15]`; and it packs per
row the first gray value of each pair into the high nibble (`g <<< 4`),
the second into the low nibble, an odd trailing value alone in the high
nibble with a zero low nibble (`nibblePack`), each row starting a fresh
byte. -/
theorem C4_floor_gray (pixels : List Pixel) (width height : ℕ)
    (hlen : pixels.length = width * height) :
    packGray4 pixels width height
      = .ok (((List.range height).map fun y =>
          nibblePack ((List.range width).map fun x =>
            min 15 (max 0 (lumaFloorDouble
              (pixAtD pixels (y * width + x)))))).flatten) ∧
    ∀ p : Pixel, gray4 p ≤ 15 := by
  exact ⟨packGray4_ok pixels width height (le_of_eq hlen.symm), gray4_le⟩

/-- C4 (witness): the amended theorem at the 4×1 buffer of gray levels
0, 85, 170, 255 (gray values 0, 5, 10, 15 → bytes `0x05`, `0xAF`). -/
theorem C4_floor_gray_witness :
    packGray4 [⟨0, 0, 0, 255⟩, ⟨85, 85, 85, 255⟩, ⟨170, 170, 170, 255⟩,
      ⟨255, 255, 255, 255⟩] 4 1 = Except.ok [0x05, 0xAF] ∧
    gray4 ⟨85, 85, 85, 255⟩ ≤ 15 := by
  have h := C4_floor_gray [⟨0, 0, 0, 255⟩, ⟨85, 85, 85, 255⟩,
    ⟨170, 170, 170, 255⟩, ⟨255, 255, 255, 255⟩] 4 1 (by decide)
  exact ⟨h.1.trans (by decide), h.2 ⟨85, 85, 85, 255⟩⟩

/-- C5: `pack1bit` in horizontal orientation emits, row by row, the
row's on-bits chunked MSB-first into bytes (`bitsToBytes`), each row
starting a fresh byte with a partial trailing byte zero-padded in its
low-order positions (`byteOfBits` shifts the partial value high), for a
total of `ceil(w / 8) * h` bytes. -/
theorem C5_horizontal_geometry (pixels : List Pixel) (width height : ℕ)
    (hlen : pixels.length = width * height) :
    pack1bit pixels width height "horizontal"
      = .ok (hSpec onPix pixels width height) ∧
    (hSpec onPix pixels width height).length = ((width + 7) / 8) * height := by
  exact ⟨pack1bit_horizontal pixels width height (le_of_eq hlen.symm),
    hSpec_length onPix pixels width height⟩

/-- C5 (witness): a 10×1 all-on row yields `[0xFF, 0xC0]`, of length
`ceil(10 / 8) * 1 = 2`. -/
theorem C5_horizontal_geometry_witness :
    pack1bit (List.replicate 10 ⟨255, 255, 255, 255⟩) 10 1 "horizontal"
      = Except.ok [0xFF, 0xC0] ∧
    (hSpec onPix (List.replicate 10 ⟨255, 255, 255, 255⟩) 10 1).length
      = ((10 + 7) / 8) * 1 := by
  have h := C5_horizontal_geometry
    (List.replicate 10 ⟨255, 255, 255, 255⟩) 10 1 (by decide)
  exact ⟨h.1.trans (by decide), h.2⟩

/-- C6: `pack1bit` in vertical orientation emits `w * ceil(h / 8)` bytes
in column-major order — for each column `x` in turn, one byte per page
`yPage` (`vSpec` is exactly that nested iteration flattened) — where
bit `i` of a page byte holds the pixel of row `yPage * 8 + (7 - i)`
(bit 7 = topmost row of the page, bit 0 = eighth), and page positions at
or beyond the buffer height contribute 0 bits. -/
theorem C6_vertical_geometry (pixels : List Pixel) (width height : ℕ)
    (x yPage i : ℕ) (hlen : pixels.length = width * height) (hi : i ≤ 7) :
    pack1bit pixels width height "vertical"
      = .ok (vSpec onPix pixels width height) ∧
    vSpec onPix pixels width height
      = ((List.range width).map fun c =>
          (List.range ((height + 7) / 8)).map fun pg =>
            vPageByte onPix pixels width height c pg).flatten ∧
    (vSpec onPix pixels width height).length = width * ((height + 7) / 8) ∧
    (vPageByte onPix pixels width height x yPage).testBit i
      = (decide (yPage * 8 + (7 - i) < height) &&
         onPix (pixAtD pixels ((yPage * 8 + (7 - i)) * width + x))) := by
  exact ⟨pack1bit_vertical pixels width height (le_of_eq hlen.symm), rfl,
    vSpec_length onPix pixels width height,
    vPageByte_testBit onPix pixels width height x yPage i hi⟩

/-- C6 (witness): a 1×8 column alternating on/off yields the single
page byte `0xAA`, whose bit 7 is the topmost (on) pixel. -/
theorem C6_vertical_geometry_witness :
    pack1bit [⟨255, 255, 255, 255⟩, ⟨0, 0, 0, 255⟩, ⟨255, 255, 255, 255⟩,
        ⟨0, 0, 0, 255⟩, ⟨255, 255, 255, 255⟩, ⟨0, 0, 0, 255⟩,
        ⟨255, 255, 255, 255⟩, ⟨0, 0, 0, 255⟩] 1 8 "vertical"
      = Except.ok [0xAA] ∧
    (vPageByte onPix [⟨255, 255, 255, 255⟩, ⟨0, 0, 0, 255⟩,
        ⟨255, 255, 255, 255⟩, ⟨0, 0, 0, 255⟩, ⟨255, 255, 255, 255⟩,
        ⟨0, 0, 0, 255⟩, ⟨255, 255, 255, 255⟩, ⟨0, 0, 0, 255⟩] 1 8 0
      0).testBit 7 = true := by
  have h := C6_vertical_geometry [⟨255, 255, 255, 255⟩, ⟨0, 0, 0, 255⟩,
    ⟨255, 255, 255, 255⟩, ⟨0, 0, 0, 255⟩, ⟨255, 255, 255, 255⟩,
    ⟨0, 0, 0, 255⟩, ⟨255, 255, 255, 255⟩, ⟨0, 0, 0, 255⟩] 1 8 0 0 7
    (by decide) (by decide)
  exact ⟨h.1.trans (by decide), h.2.2.2.trans (by decide)⟩

/-- C7: for a buffer of length `w * h` with 8-bit channels, `packRGB565`
emits, in row-major order (y outer, x inner), the word
`((r >> 3) << 11) | ((g >> 2) << 5) | (b >> 3)` for each pixel
(`rgb565Claim` is that formula verbatim). -/
theorem C7_rgb565_formula (pixels : List Pixel) (width height : ℕ)
    (hlen : pixels.length = width * height)
    (hchan : ∀ p ∈ pixels, p.r ≤ 255 ∧ p.g ≤ 255 ∧ p.b ≤ 255) :
    packRGB565 pixels width height
      = .ok (((List.range height).map fun y =>
          (List.range width).map fun x =>
            rgb565Claim (pixAtD pixels (y * width + x))).flatten) := by
  rw [packRGB565_ok pixels width height (le_of_eq hlen.symm), spec565]
  congr 1
  congr 1
  apply List.map_congr_left
  intro y hy
  apply List.map_congr_left
  intro x hx
  have hidx : y * width + x < pixels.length := by
    rw [hlen]
    exact index_lt (List.mem_range.mp hx) (List.mem_range.mp hy)
  have hmem : pixAtD pixels (y * width + x) ∈ pixels := by
    rw [pixAtD, List.getD_eq_getElem?_getD, List.getElem?_eq_getElem hidx]
    exact List.getElem_mem hidx
  obtain ⟨hr, hg, hb⟩ := hchan _ hmem
  exact rgbTo565_eq_claim _ hr hg hb

/-- C7 (witness): pure red, green, blue in a 3×1 buffer yield
`[0xF800, 0x07E0, 0x001F]`. -/
theorem C7_rgb565_formula_witness :
    packRGB565 [⟨255, 0, 0, 255⟩, ⟨0, 255, 0, 255⟩, ⟨0, 0, 255, 255⟩] 3 1
      = Except.ok [0xF800, 0x07E0, 0x001F] := by
  have h := C7_rgb565_formula
    [⟨255, 0, 0, 255⟩, ⟨0, 255, 0, 255⟩, ⟨0, 0, 255, 255⟩] 3 1
    (by decide) (by decide)
  exact h.trans (by decide)

/-- C8 (counterexample): the claim says every unrecognized
draw-mode/output-format pair makes code generation return `undefined`
(modelled `.ok none`).  The pair `("HORIZONTAL_1BIT", "LEGACY")` is not
recognized by the output-format dispatch, yet generation returns a
defined legacy sketch string. -/
theorem C8_counterexample :
    generateCppCode "HORIZONTAL_1BIT" "LEGACY" "sprite"
        [⟨255, 255, 255, 255⟩] 1 1 ≠ Except.ok none ∧
    (generateCppCode "HORIZONTAL_1BIT" "LEGACY" "sprite"
        [⟨255, 255, 255, 255⟩] 1 1).isOk = true := by
  refine ⟨by decide, by decide⟩

/-- C8 (amended): `generateCppCode` never silently returns `undefined`:
every draw-mode/output-format pair either returns a string or throws
(a `TypeError` when a recognized output format consumes the undefined
packed data of an unrecognized draw mode, a `ReferenceError` from the
undeclared identifier `mode` in the legacy fallback); in particular,
when the output format is unrecognized and the draw mode is neither
`HORIZONTAL_1BIT` nor `HORIZONTAL_RGB565`, generation always throws. -/
theorem C8_never_silent_undefined (drawMode outputFormat name : String)
    (data : List Pixel) (w h : ℕ) :
    generateCppCode drawMode outputFormat name data w h ≠ Except.ok none ∧
    (outputFormat ≠ "PLAIN_BYTES" → outputFormat ≠ "ARDUINO_CODE" →
     outputFormat ≠ "ARDUINO_SINGLE_BITMAP" →
     outputFormat ≠ "GFX_BITMAP_FONT" → drawMode ≠ "HORIZONTAL_1BIT" →
     drawMode ≠ "HORIZONTAL_RGB565" →
     (generateCppCode drawMode outputFormat name data w h).isOk = false) := by
  constructor
  · rw [generateCppCode]
    cases hcb : computeBytes drawMode data w h with
    | error e => simp
    | ok packed =>
      simp only []
      split_ifs <;>
        rcases packed with _ | ⟨bytes, dataType, dataFormat⟩ <;>
        cases hp : packRGB565 data w h <;> simp [hp]
  · intro h1 h2 h3 h4 h5 h6
    rw [generateCppCode]
    cases hcb : computeBytes drawMode data w h with
    | error e => rfl
    | ok packed =>
      simp only []
      rw [if_neg h1, if_neg h2, if_neg h3, if_neg h4, if_neg h5, if_neg h6]
      rfl

/-- C8 (witness): the amended theorem at a recognized draw mode with an
unrecognized output format: generation throws, it does not return
`undefined`. -/
theorem C8_never_silent_undefined_witness :
    generateCppCode "VERTICAL_1BIT" "WEIRD" "sprite" [] 0 0
      ≠ Except.ok none ∧
    (generateCppCode "VERTICAL_1BIT" "WEIRD" "sprite" [] 0 0).isOk
      = false := by
  have h := C8_never_silent_undefined "VERTICAL_1BIT" "WEIRD" "sprite" [] 0 0
  exact ⟨h.1, h.2 (by decide) (by decide) (by decide) (by decide)
    (by decide) (by decide)⟩

/-- C9: the asset name is sanitized by replacing every character outside
`[A-Za-z0-9_]` with `_` (positionally: length preserved, in-class
characters kept, all others become `_`, and the result contains only
in-class characters); code generation depends on the name only through
its sanitized form, so the same sanitized identifier is used in every
emitted declaration and reference of one generation call; and the
exported file is named `<sanitized>.h`. -/
theorem C9_sanitization (name drawMode outputFormat : String)
    (data : List Pixel) (w h : ℕ) :
    (sanitizeName name).data
      = (name.data.map fun c => if wordChar c then c else '_') ∧
    (∀ c ∈ (sanitizeName name).data, wordChar c = true) ∧
    generateCppCode drawMode outputFormat name data w h
      = generateCppCode drawMode outputFormat (sanitizeName name) data w h ∧
    exportFileName name = sanitizeName name ++ ".h" := by
  refine ⟨rfl, ?_, ?_, rfl⟩
  · intro c hc
    rw [sanitizeName] at hc
    simp only [String.data] at hc
    simp only [List.mem_map] at hc
    obtain ⟨d, _, hd⟩ := hc
    by_cases h : wordChar d = true
    · rw [← hd, if_pos h]; exact h
    · simp only [Bool.not_eq_true] at h
      rw [← hd, if_neg (by simp [h])]
      decide
  · rw [generateCppCode, generateCppCode, sanitizeName_idem]

/-- C9 (witness): the sanitization theorem at the name `"my-sprite!"`,
whose hyphen and exclamation mark become underscores in the exported
file name. -/
theorem C9_sanitization_witness :
    exportFileName "my-sprite!" = "my_sprite_.h" := by
  have h := C9_sanitization "my-sprite!" "HORIZONTAL_1BIT" "ARDUINO_CODE"
    [] 0 0
  exact h.2.2.2.trans (by decide)

/-- C10: an orientation string other than `"horizontal"` and
`"vertical"` makes `pack1bit` fall through both branches and return the
empty byte array, while `pack1bitAlpha`'s bare `else` applies vertical
packing for every orientation other than `"horizontal"` — so the two
packers disagree on unrecognized orientations. -/
theorem C10_orientation_fallthrough (pixels : List Pixel)
    (width height : ℕ) (orientation : String)
    (h1 : orientation ≠ "horizontal") (h2 : orientation ≠ "vertical") :
    pack1bit pixels width height orientation = .ok [] ∧
    pack1bitAlpha pixels width height orientation
      = pack1bitAlpha pixels width height "vertical" := by
  constructor
  · rw [pack1bit, if_neg h1, if_neg h2]
  · rw [pack1bitAlpha, if_neg h1, pack1bitAlpha, if_neg (by decide)]

/-- C10 (witness): at the orientation `"diag"` with one opaque white
pixel, `pack1bit` returns `[]` while `pack1bitAlpha` packs vertically
and returns `[0x80]` — the packers disagree. -/
theorem C10_orientation_fallthrough_witness :
    pack1bit [⟨255, 255, 255, 255⟩] 1 1 "diag" = Except.ok [] ∧
    pack1bitAlpha [⟨255, 255, 255, 255⟩] 1 1 "diag"
      = Except.ok [0x80] := by
  have h := C10_orientation_fallthrough [⟨255, 255, 255, 255⟩] 1 1 "diag"
    (by decide) (by decide)
  exact ⟨h.1, h.2.trans (by decide)⟩
